import Mathlib

/-!
A shallow embedding of the POS transaction-processing and sales-aggregation
core of the repository (src/services/posService.ts, src/services/dailySalesService.ts,
src/utils/pdfUtils.ts, and the cart logic of the POS page component).

Modelling conventions:
* JavaScript numbers that the code uses as integral quantities (prices, stock,
  quantities, counts, millisecond timestamps) are modelled as `Int`.
  A possibly-undefined number is `Option Int` (`none` plays the role of
  `undefined`/`NaN` where the code can produce it).
* The Firestore database is modelled as explicit association lists keyed by
  document id; `runTransaction` is modelled as a sequential read-modify-write
  over a staged copy of the `products` collection: a thrown error aborts the
  whole transaction and discards all staged writes, mirroring the atomic
  commit-or-abort contract of the store's transaction primitive.
* `Date` values are modelled as millisecond timestamps (`Int`) in a fixed
  UTC-offset-zero timezone; `setHours(0,0,0,0)` / `setHours(23,59,59,999)`
  become truncation/extension within the 86 400 000 ms day.
* `addDoc`'s store-assigned ids are modelled by a counter-derived id
  (`autoId`); Firestore auto-ids are always non-empty strings.
* Calendar-day date strings (`toISOString().split('T')[0]`) are modelled by
  the day index of the timestamp rendered as a string: the claims depend only
  on the key being a function of the calendar day, not on its format.
-/

/-- A product document in the `products` collection (the document id is the
association-list key, so it is not repeated inside the record). -/
structure Product where
  name : String
  category : String
  price : Int
  stock : Int
  image_url : String
  updated_at : Int
deriving Repr, DecidableEq

/-- The product snapshot carried inside a cart line / transaction item
(`{id, name, price, category, image_url}` in the POS page component). -/
structure ProductSnapshot where
  id : String
  name : String
  price : Int
  category : String
  image_url : String
deriving Repr, DecidableEq

/-- A cart line / transaction item: product snapshot, quantity, unit price and
computed line total. -/
structure CartItem where
  id : String
  product : ProductSnapshot
  quantity : Int
  price : Int
  totalPrice : Int
deriving Repr, DecidableEq

/-- The argument of `processPOSTransaction` (`Omit<POSTransaction, 'id'>`). -/
structure TxInput where
  items : List CartItem
  totalAmount : Int
  paymentMethod : String
  cashReceived : Option Int
  change : Option Int
  status : String
  cashierId : String
  cashierName : String
deriving Repr, DecidableEq

/-- The simplified item stored inside persisted transaction records
(`simplifiedItems` in posService.ts). -/
structure SimplifiedItem where
  id : String
  product_id : String
  name : String
  price : Int
  quantity : Int
  totalPrice : Int
  image_url : String
deriving Repr, DecidableEq

/-- The persisted `pos_transactions` document. The source's object literal
lists several fields twice (see `posTransactionPayloadFields`); duplicate keys
in a JavaScript object literal resolve to the last occurrence, and here both
occurrences denote the same value, so the record has each field once. -/
structure TxRecord where
  items : List SimplifiedItem
  totalAmount : Int
  paymentMethod : String
  cashReceived : Option Int
  change : Option Int
  status : String
  cashierId : String
  cashierName : String
  timestamp : Int
  createdAt : Int
  dateString : String
deriving Repr, DecidableEq

/-- The persisted `financial_transactions` document (same duplicate-key note
as `TxRecord`). -/
structure FinRecord where
  transactionId : String
  date : String
  category : String
  type : String
  amount : Int
  description : String
  items : List SimplifiedItem
  totalAmount : Int
  paymentMethod : String
  cashReceived : Option Int
  change : Option Int
  status : String
  cashierId : String
  cashierName : String
  timestamp : Int
  createdAt : Int
  dateString : String
deriving Repr, DecidableEq

/-- A `daily_sales` document (interface `DailySales` in dailySalesService.ts). -/
structure DailyRec where
  date : String
  totalSales : Int
  transactionCount : Int
  updatedAt : Int
  timestamp : Int
deriving Repr, DecidableEq

/-- The modelled Firestore state: the collections the write path touches, plus
the id counter standing in for the store's id generator. -/
structure Store where
  products : List (String × Product)
  pos_transactions : List (String × TxRecord)
  financial_transactions : List (String × FinRecord)
  daily_sales : List (String × DailyRec)
  nextId : Nat
deriving Repr, DecidableEq

/-- Point read of a document by id (`getDoc` / `transaction.get`). -/
def lookupA {α : Type} (l : List (String × α)) (k : String) : Option α :=
  (l.find? (fun p => p.1 == k)).map Prod.snd

/-- Point write of a document by id (`setDoc` / `transaction.update` /
keyed upsert): replaces the value when the key is present, else appends. -/
def setA {α : Type} : List (String × α) → String → α → List (String × α)
  | [], k, v => [(k, v)]
  | (k', v') :: rest, k, v =>
    if k' == k then (k, v) :: rest else (k', v') :: setA rest k v

/-- Store-assigned document id (`addDoc`); Firestore auto-ids are non-empty. -/
def autoId (n : Nat) : String := "doc" ++ toString n

/-- Milliseconds per day. -/
def dayMs : Int := 86400000

/-- The `YYYY-MM-DD` date key derived from a timestamp
(`new Date().toISOString().split('T')[0]`), modelled as the day index. -/
def dateKeyOf (now : Int) : String := toString (Int.ediv now dayMs)

/-- The "product not found" error message thrown by the stock phase. -/
def notFoundMsg (name : String) : String := "Product " ++ name ++ " not found"

/-- The "insufficient stock" error message thrown by the stock phase. -/
def insuffMsg (name : String) (avail req : Int) : String :=
  "Not enough stock for " ++ name ++ ". Available: " ++ toString avail ++
    ", Requested: " ++ toString req

/-- The body of `runTransaction` in `processPOSTransaction`: for each cart item
in order, read the product, throw if absent, throw if `stock < quantity`,
otherwise stage `stock := stock - quantity` (and a refreshed `updated_at`).
The staged `products` collection is threaded through; an error aborts
everything. -/
def stockPhase (now : Int) : List CartItem → List (String × Product) →
    Except String (List (String × Product))
  | [], ps => Except.ok ps
  | item :: rest, ps =>
    match lookupA ps item.product.id with
    | none => Except.error (notFoundMsg item.product.name)
    | some p =>
      if p.stock < item.quantity then
        Except.error (insuffMsg item.product.name p.stock item.quantity)
      else
        stockPhase now rest
          (setA ps item.product.id { p with stock := p.stock - item.quantity, updated_at := now })

/-- `updateDailySales(date, amount)` (dailySalesService.ts): read the
`daily_sales` document keyed by `date`; if present, write back the incremented
totals with refreshed timestamps, else create the record with
`totalSales = amount`, `transactionCount = 1`. -/
def updateDailySales (now : Int) (date : String) (amount : Int)
    (ds : List (String × DailyRec)) : List (String × DailyRec) :=
  match lookupA ds date with
  | some existingData =>
    setA ds date
      { date := date, totalSales := existingData.totalSales + amount,
        transactionCount := existingData.transactionCount + 1,
        updatedAt := now, timestamp := now }
  | none =>
    setA ds date
      { date := date, totalSales := amount, transactionCount := 1,
        updatedAt := now, timestamp := now }

/-- The `simplifiedItems` mapping of posService.ts. -/
def simplifyItem (item : CartItem) : SimplifiedItem :=
  { id := item.id, product_id := item.product.id, name := item.product.name,
    price := item.price, quantity := item.quantity,
    totalPrice := item.totalPrice, image_url := item.product.image_url }

/-- The `pos_transactions` payload built by the record phase (deduplicated,
see `posTransactionPayloadFields` for the literal field list). -/
def posTxRecordOf (now : Int) (transaction : TxInput) : TxRecord :=
  { items := transaction.items.map simplifyItem,
    totalAmount := transaction.totalAmount,
    paymentMethod := transaction.paymentMethod,
    cashReceived := transaction.cashReceived, change := transaction.change,
    status := transaction.status, cashierId := transaction.cashierId,
    cashierName := transaction.cashierName, timestamp := now,
    createdAt := now, dateString := dateKeyOf now }

/-- The `financial_transactions` payload built by the record phase
(deduplicated, see `financialPayloadFields` for the literal field list). -/
def finRecordOf (now : Int) (txId : String) (transaction : TxInput) : FinRecord :=
  { transactionId := txId, date := dateKeyOf now, category := "sales",
    type := "income", amount := transaction.totalAmount,
    description := "POS Sale by " ++ transaction.cashierName,
    items := transaction.items.map simplifyItem,
    totalAmount := transaction.totalAmount,
    paymentMethod := transaction.paymentMethod,
    cashReceived := transaction.cashReceived, change := transaction.change,
    status := transaction.status, cashierId := transaction.cashierId,
    cashierName := transaction.cashierName, timestamp := now,
    createdAt := now, dateString := dateKeyOf now }

/-- `processPOSTransaction` (posService.ts): run the atomic stock phase; on
failure re-throw with no state change; on success run the record phase
(persist the `pos_transactions` record, the `financial_transactions` record,
and the daily-sales update) and return the store-assigned transaction id.
The record phase's own failures are caught and reported as a toast in the
source; its operations are total in this model. -/
def processPOSTransaction (now : Int) (transaction : TxInput) (s : Store) :
    Except String String × Store :=
  match stockPhase now transaction.items s.products with
  | Except.error e => (Except.error e, s)
  | Except.ok ps =>
    let txId := autoId s.nextId
    (Except.ok txId,
      { products := ps,
        pos_transactions := (txId, posTxRecordOf now transaction) :: s.pos_transactions,
        financial_transactions :=
          (autoId (s.nextId + 1), finRecordOf now txId transaction) :: s.financial_transactions,
        daily_sales := updateDailySales now (dateKeyOf now) transaction.totalAmount s.daily_sales,
        nextId := s.nextId + 2 })

/-- A raw `pos_transactions` document as seen by the read side: the code reads
`doc.data() as any` and checks field presence explicitly, so the fields the
reads inspect are optional here. -/
structure RawTxDoc where
  id : String
  timestamp : Option Int
  items : Option (List SimplifiedItem)
  totalAmount : Option Int
  paymentMethod : String
deriving Repr, DecidableEq

/-- A raw `daily_sales` document as seen by the read side (no field is
validated by the reads). -/
structure RawDailyDoc where
  id : String
  date : Option String
  totalSales : Option Int
  transactionCount : Option Int
  updatedAt : Option Int
  timestamp : Option Int
deriving Repr, DecidableEq

/-- `startDate.setHours(0, 0, 0, 0)`: truncate a timestamp to midnight of its
day. -/
def startOfDay (t : Int) : Int := t - t % dayMs

/-- `endDate.setHours(23, 59, 59, 999)`: extend a timestamp to the last
millisecond of its day. -/
def endOfDay (t : Int) : Int := startOfDay t + 86399999

/-- The Firestore range query `where('timestamp', '>=', lo),
where('timestamp', '<=', hi)`: documents without the `timestamp` field never
match a range filter on it. -/
def tsInRange (lo hi : Int) (d : RawTxDoc) : Bool :=
  match d.timestamp with
  | some ts => decide (lo ≤ ts) && decide (ts ≤ hi)
  | none => false

/-- The sort key of the descending comparator
`(b.timestamp ?? b.createdAt) - (a.timestamp ?? a.createdAt)`; every document
the queries deliver carries a timestamp, so the `createdAt` fallback is
unreachable and the key is the timestamp. -/
def tsKey (d : RawTxDoc) : Int := d.timestamp.getD 0

/-- One insertion step of the descending-by-timestamp sort. -/
def insertDesc (d : RawTxDoc) : List RawTxDoc → List RawTxDoc
  | [] => [d]
  | e :: rest =>
    if tsKey e < tsKey d then d :: e :: rest else e :: insertDesc d rest

/-- `transactions.sort((a, b) => dateB - dateA)`: sort descending by
timestamp. -/
def sortDescTx : List RawTxDoc → List RawTxDoc
  | [] => []
  | d :: rest => insertDesc d (sortDescTx rest)

/-- `getPOSTransactionsByDateRange(startDate, endDate)` (pdfUtils.ts): mutate
`startDate` to 00:00:00.000 and `endDate` to 23:59:59.999 of their days, query
transactions with timestamp in the inclusive window, skip documents without a
timestamp, and sort descending by timestamp. The in-place mutation of the
caller's `Date` objects is modelled by returning the mutated values alongside
the result. -/
def getPOSTransactionsByDateRange (startDate endDate : Int)
    (docs : List RawTxDoc) : List RawTxDoc × Int × Int :=
  let s := startOfDay startDate
  let e := endOfDay endDate
  (sortDescTx ((docs.filter (tsInRange s e)).filter (fun d => d.timestamp.isSome)), s, e)

/-- JavaScript addition where one operand may be `undefined`/`NaN`
(`sum + t.totalAmount` with `sum` starting at `0`): `none` models `NaN`. -/
def jsAdd (sum amt : Option Int) : Option Int :=
  match sum, amt with
  | some s, some a => some (s + a)
  | _, _ => none

/-- `x || 0` applied to an object lookup: an absent key (`undefined`) and a
stored `NaN` are both falsy and coerce to `0`. -/
def jsOrZero : Option (Option Int) → Int
  | some (some v) => v
  | some none => 0
  | none => 0

/-- One step of `paymentMethodCounts[method] = (paymentMethodCounts[method] || 0) + 1`. -/
def countsStep (acc : List (String × Int)) (d : RawTxDoc) : List (String × Int) :=
  setA acc d.paymentMethod ((lookupA acc d.paymentMethod).getD 0 + 1)

/-- One step of `paymentMethodTotals[method] = (paymentMethodTotals[method] || 0) + t.totalAmount`. -/
def totalsStep (acc : List (String × Option Int)) (d : RawTxDoc) :
    List (String × Option Int) :=
  setA acc d.paymentMethod (jsAdd (some (jsOrZero (lookupA acc d.paymentMethod))) d.totalAmount)

/-- The result record of `getPOSTransactionsSummary`. -/
structure Summary where
  totalSales : Option Int
  transactionCount : Nat
  paymentMethodCounts : List (String × Int)
  paymentMethodTotals : List (String × Option Int)
deriving Repr, DecidableEq

/-- `getPOSTransactionsSummary(startDate, endDate)` (pdfUtils.ts): fold over
the result of `getPOSTransactionsByDateRange` — sum of amounts, length, and
per-payment-method counts and totals. -/
def getPOSTransactionsSummary (startDate endDate : Int)
    (docs : List RawTxDoc) : Summary :=
  let transactions := (getPOSTransactionsByDateRange startDate endDate docs).1
  { totalSales := transactions.foldl (fun sum t => jsAdd sum t.totalAmount) (some 0),
    transactionCount := transactions.length,
    paymentMethodCounts := transactions.foldl countsStep [],
    paymentMethodTotals := transactions.foldl totalsStep [] }

/-- The required-field check of the `usePOSTransactions` snapshot handler:
`data && data.timestamp && Array.isArray(data.items) && typeof data.totalAmount === 'number'`. -/
def validTxDoc (d : RawTxDoc) : Bool :=
  d.timestamp.isSome && d.items.isSome && d.totalAmount.isSome

/-- The document-processing core of the `usePOSTransactions` hook: keep only
documents carrying all required fields (skipping the rest with a logged
warning), then sort descending by timestamp. -/
def parsePOSDocs (docs : List RawTxDoc) : List RawTxDoc :=
  sortDescTx (docs.filter validTxDoc)

/-- Days from the civil epoch 1970-01-01 for a Gregorian date (`y`, `m` in
1..12, `d` in 1..31); the standard civil-from-days arithmetic used to model
`new Date(year, monthIndex, day).getTime()`. -/
def daysFromCivil (y m d : Int) : Int :=
  let y' := if m ≤ 2 then y - 1 else y
  let era := Int.ediv y' 400
  let yoe := y' - era * 400
  let mp := if 2 < m then m - 3 else m + 9
  let doy := Int.ediv (153 * mp + 2) 5 + d - 1
  let doe := yoe * 365 + Int.ediv yoe 4 - Int.ediv yoe 100 + doy
  era * 146097 + doe - 719468

/-- `new Date(year, monthIndex, day)` with JavaScript's normalisation of
out-of-range month indexes and day `0`, as a day count since the epoch. -/
def jsDateDays (y mIdx d : Int) : Int :=
  daysFromCivil (y + Int.ediv mIdx 12) (Int.emod mIdx 12 + 1) 1 + (d - 1)

/-- The Firestore month-window filter of `getMonthlySales`:
`timestamp >= Timestamp.fromDate(new Date(year, month - 1, 1))` and
`timestamp <= Timestamp.fromDate(new Date(year, month, 0))` (midnight of the
last day of the month). -/
def inMonthWindow (year month : Int) (d : RawDailyDoc) : Bool :=
  match d.timestamp with
  | some ts =>
    decide (jsDateDays year (month - 1) 1 * dayMs ≤ ts) &&
      decide (ts ≤ jsDateDays year month 0 * dayMs)
  | none => false

/-- One insertion step of the ascending-by-timestamp order (`orderBy('timestamp')`). -/
def insertAscDaily (d : RawDailyDoc) : List RawDailyDoc → List RawDailyDoc
  | [] => [d]
  | e :: rest =>
    if d.timestamp.getD 0 < e.timestamp.getD 0 then d :: e :: rest
    else e :: insertAscDaily d rest

/-- Query results delivered in ascending timestamp order. -/
def sortAscDaily : List RawDailyDoc → List RawDailyDoc
  | [] => []
  | d :: rest => insertAscDaily d (sortAscDaily rest)

/-- `getMonthlySales(year, month)` (dailySalesService.ts), primary query path:
range-filter on `timestamp` over the month window, ordered ascending; every
matching document is pushed as-is (`doc.data() as DailySales`) with no
per-field validation. -/
def getMonthlySales (year month : Int) (docs : List RawDailyDoc) :
    List RawDailyDoc :=
  sortAscDaily (docs.filter (inMonthWindow year month))

/-- `cartTotal = cart.reduce((total, item) => total + item.totalPrice, 0)`
(POS page component). -/
def cartTotal (cart : List CartItem) : Int :=
  cart.foldl (fun total item => total + item.totalPrice) 0

/-- The in-place update of `addToCart` when the product is already in the
cart: bump the quantity of the (first) matching line and recompute its line
total. -/
def bumpItem (pid : String) : List CartItem → List CartItem
  | [] => []
  | it :: rest =>
    if it.id == pid then
      { it with
        quantity := it.quantity + 1
        totalPrice := (it.quantity + 1) * it.price } :: rest
    else it :: bumpItem pid rest

/-- `addToCart(product)` (POS page component): merge into an existing line for
the same product, or append a fresh line with quantity 1 and
`totalPrice = product.price`. -/
def addToCart (cart : List CartItem) (p : ProductSnapshot) : List CartItem :=
  if (cart.find? (fun it => it.id == p.id)).isSome then bumpItem p.id cart
  else cart ++ [{ id := p.id, product := p, quantity := 1, price := p.price,
                  totalPrice := p.price }]

/-- `removeFromCart(id)`: drop every line with the given id. -/
def removeFromCart (cart : List CartItem) (pid : String) : List CartItem :=
  cart.filter (fun it => !(it.id == pid))

/-- `updateQuantity(id, change)` (POS page component): clamp the new quantity
at 0, remove the line when it reaches 0, otherwise rewrite every matching line
with the new quantity and `totalPrice = newQuantity * price`. -/
def updateQuantity (cart : List CartItem) (pid : String) (change : Int) :
    List CartItem :=
  match cart.find? (fun it => it.id == pid) with
  | none => cart
  | some item =>
    let newQuantity := max 0 (item.quantity + change)
    if newQuantity == 0 then removeFromCart cart pid
    else
      cart.map (fun it =>
        if it.id == pid then
          { it with quantity := newQuantity, totalPrice := newQuantity * it.price }
        else it)

/-- The cart-mutating operations the POS page exposes. -/
inductive CartOp where
  | add (p : ProductSnapshot)
  | update (pid : String) (change : Int)
  | remove (pid : String)
  | clear
deriving Repr, DecidableEq

/-- Apply one cart operation. -/
def applyCartOp (cart : List CartItem) : CartOp → List CartItem
  | CartOp.add p => addToCart cart p
  | CartOp.update pid change => updateQuantity cart pid change
  | CartOp.remove pid => removeFromCart cart pid
  | CartOp.clear => []

/-- A cart reachable from the empty cart by a sequence of UI operations. -/
def applyCartOps (ops : List CartOp) : List CartItem :=
  ops.foldl applyCartOp []

/-- The transaction object built by `processPayment` in the POS page
component: re-snapshotted items, `totalAmount := cartTotal`, and the payment /
cashier metadata. -/
def buildTransaction (cart : List CartItem) (paymentMethod : String)
    (cashReceived change : Option Int) (status cashierId cashierName : String) :
    TxInput :=
  { items := cart.map (fun item =>
      { id := item.id,
        product := { id := item.product.id, name := item.product.name,
                     price := item.product.price,
                     category := item.product.category,
                     image_url := item.product.image_url },
        quantity := item.quantity, price := item.price,
        totalPrice := item.totalPrice }),
    totalAmount := cartTotal cart, paymentMethod := paymentMethod,
    cashReceived := cashReceived, change := change, status := status,
    cashierId := cashierId, cashierName := cashierName }

/-- The field names of the `pos_transactions` write payload, in source order
(posService.ts lines 71–98). The object literal lists the payment, cashier and
timestamp fields twice — an apparent copy-paste duplication, which also
re-declares `const dateString` and `const simplifiedItems` just above it. -/
def posTransactionPayloadFields : List String :=
  ["items", "totalAmount", "paymentMethod", "cashReceived", "change",
   "status", "cashierId", "cashierName", "timestamp", "createdAt",
   "dateString",
   "paymentMethod", "cashReceived", "change", "status", "cashierId",
   "cashierName", "timestamp", "createdAt", "dateString"]

/-- The field names of the `financial_transactions` write payload, in source
order (posService.ts lines 104–137), with the same duplicated block. -/
def financialPayloadFields : List String :=
  ["transactionId", "date", "category", "type", "amount", "description",
   "items", "totalAmount", "paymentMethod", "cashReceived", "change",
   "status", "cashierId", "cashierName", "timestamp", "createdAt",
   "dateString",
   "paymentMethod", "cashReceived", "change", "status", "cashierId",
   "cashierName", "timestamp", "createdAt", "dateString"]

/-- A concrete catalog product used by the concrete instances below. -/
def colaProduct (stock : Int) : Product :=
  { name := "Cola", category := "drink", price := 500, stock := stock,
    image_url := "cola.jpg", updated_at := 0 }

/-- The cart-side snapshot of `colaProduct` under the id `p1`. -/
def colaSnapshot : ProductSnapshot :=
  { id := "p1", name := "Cola", price := 500, category := "drink",
    image_url := "cola.jpg" }

/-- A concrete cart line for `colaSnapshot` with the given quantity. -/
def colaItem (q : Int) : CartItem :=
  { id := "p1", product := colaSnapshot, quantity := q, price := 500,
    totalPrice := 500 * q }

/-- A concrete transaction input over the given items. -/
def mkTx (items : List CartItem) (amt : Int) : TxInput :=
  { items := items, totalAmount := amt, paymentMethod := "cash",
    cashReceived := some 2000, change := some 500, status := "completed",
    cashierId := "c1", cashierName := "Alice" }

/-- A concrete store holding one Cola document with the given stock. -/
def mkStore (stock : Int) : Store :=
  { products := [("p1", colaProduct stock)], pos_transactions := [],
    financial_transactions := [], daily_sales := [], nextId := 0 }

/-- A concrete malformed `daily_sales` document: it carries a timestamp (so
range queries match it) but none of the required aggregate fields. -/
def corruptDailyDoc : RawDailyDoc :=
  { id := "d1", date := none, totalSales := none, transactionCount := none,
    updatedAt := none, timestamp := some (20089 * 86400000) }

theorem lookupA_nil {α : Type} (k : String) : lookupA ([] : List (String × α)) k = none := rfl

theorem lookupA_cons {α : Type} (k' : String) (v' : α) (tl : List (String × α)) (k : String) :
    lookupA ((k', v') :: tl) k = if k' = k then some v' else lookupA tl k := by
  by_cases h : k' = k
  · simp [lookupA, List.find?_cons_of_pos, h]
  · simp only [lookupA, if_neg h]
    rw [List.find?_cons_of_neg]
    simp [h]

theorem lookupA_setA_self {α : Type} (l : List (String × α)) (k : String) (v : α) :
    lookupA (setA l k v) k = some v := by
  induction l with
  | nil => simp [setA, lookupA_cons]
  | cons hd tl ih =>
    obtain ⟨k', v'⟩ := hd
    by_cases h : k' = k
    · subst h
      simp [setA, lookupA_cons]
    · simp [setA, h, lookupA_cons, ih]

theorem lookupA_setA_ne {α : Type} (l : List (String × α)) (k k₀ : String) (v : α)
    (h : k₀ ≠ k) : lookupA (setA l k v) k₀ = lookupA l k₀ := by
  have h' : k ≠ k₀ := Ne.symm h
  induction l with
  | nil => simp [setA, lookupA_cons, h']
  | cons hd tl ih =>
    obtain ⟨k', v'⟩ := hd
    by_cases hk : k' = k
    · subst hk
      simp [setA, lookupA_cons, h']
    · simp [setA, hk, lookupA_cons, ih]

theorem lookupA_setA {α : Type} (l : List (String × α)) (k k₀ : String) (v : α) :
    lookupA (setA l k v) k₀ = if k = k₀ then some v else lookupA l k₀ := by
  by_cases h : k = k₀
  · subst h
    simp [lookupA_setA_self]
  · simp [h, lookupA_setA_ne l k k₀ v (fun hh => h hh.symm)]

/-- Pointwise domination between two product collections: same document
domain, and every stock in the first is at most the corresponding stock in the
second. The staged collection of the stock phase dominates downwards as the
loop proceeds (for carts with positive quantities). -/
def stocksLE (ps' ps : List (String × Product)) : Prop :=
  ∀ id : String,
    ((lookupA ps' id).isSome = (lookupA ps id).isSome) ∧
    (∀ p' p : Product, lookupA ps' id = some p' → lookupA ps id = some p →
      p'.stock ≤ p.stock)

theorem stocksLE_refl (ps : List (String × Product)) : stocksLE ps ps := by
  intro id
  refine ⟨rfl, ?_⟩
  intro p' p h1 h2
  rw [h1] at h2
  cases h2
  exact le_refl _

theorem stocksLE_set (ps : List (String × Product)) (id : String) (p : Product)
    (q : Int) (hq : 0 ≤ q) (hl : lookupA ps id = some p) (now : Int) :
    stocksLE (setA ps id { p with stock := p.stock - q, updated_at := now }) ps := by
  intro id₀
  constructor
  · rw [lookupA_setA]
    by_cases h : id = id₀
    · subst h
      rw [hl]
      simp
    · simp [h]
  · intro p' p₀ h1 h2
    rw [lookupA_setA] at h1
    by_cases h : id = id₀
    · subst h
      rw [hl] at h2
      cases h2
      simp only [if_pos rfl] at h1
      cases h1
      simp only []
      omega
    · rw [if_neg h] at h1
      rw [h1] at h2
      cases h2
      exact le_refl _

theorem stocksLE_trans (ps₁ ps₂ ps₃ : List (String × Product))
    (h12 : stocksLE ps₁ ps₂) (h23 : stocksLE ps₂ ps₃) : stocksLE ps₁ ps₃ := by
  intro id
  obtain ⟨ha1, hb1⟩ := h12 id
  obtain ⟨ha2, hb2⟩ := h23 id
  refine ⟨ha1.trans ha2, ?_⟩
  intro p' p h1 h3
  have hs : (lookupA ps₂ id).isSome := by
    rw [← ha1, h1]
    rfl
  obtain ⟨p₂, hp₂⟩ := Option.isSome_iff_exists.mp hs
  exact le_trans (hb1 p' p₂ h1 hp₂) (hb2 p₂ p hp₂ h3)


theorem stockPhase_cons_none (now : Int) (item : CartItem) (rest : List CartItem)
    (ps : List (String × Product)) (h : lookupA ps item.product.id = none) :
    stockPhase now (item :: rest) ps =
      Except.error (notFoundMsg item.product.name) := by
  simp only [stockPhase, h]

theorem stockPhase_cons_some (now : Int) (item : CartItem) (rest : List CartItem)
    (ps : List (String × Product)) (p : Product)
    (h : lookupA ps item.product.id = some p) :
    stockPhase now (item :: rest) ps =
      if p.stock < item.quantity then
        Except.error (insuffMsg item.product.name p.stock item.quantity)
      else
        stockPhase now rest (setA ps item.product.id
          { p with stock := p.stock - item.quantity, updated_at := now }) := by
  simp only [stockPhase, h]

theorem stockPhase_ok_nonneg (now : Int) (items : List CartItem)
    (ps ps' : List (String × Product))
    (hok : stockPhase now items ps = Except.ok ps')
    (hnn : ∀ id p, lookupA ps id = some p → 0 ≤ p.stock) :
    ∀ id p, lookupA ps' id = some p → 0 ≤ p.stock := by
  induction items generalizing ps with
  | nil =>
    simp only [stockPhase] at hok
    cases hok
    exact hnn
  | cons item rest ih =>
    cases hlk : lookupA ps item.product.id with
    | none =>
      rw [stockPhase_cons_none now item rest ps hlk] at hok
      cases hok
    | some p =>
      rw [stockPhase_cons_some now item rest ps p hlk] at hok
      by_cases hs : p.stock < item.quantity
      · rw [if_pos hs] at hok
        cases hok
      · rw [if_neg hs] at hok
        refine ih _ hok ?_
        intro id₀ p₀ hp₀
        rw [lookupA_setA] at hp₀
        by_cases h : item.product.id = id₀
        · rw [if_pos h] at hp₀
          cases hp₀
          show (0 : Int) ≤ p.stock - item.quantity
          omega
        · rw [if_neg h] at hp₀
          exact hnn _ _ hp₀

theorem stockPhase_error_shape (now : Int) (items : List CartItem)
    (ps : List (String × Product)) (e : String)
    (herr : stockPhase now items ps = Except.error e) :
    (∃ it ∈ items, e = notFoundMsg it.product.name) ∨
    (∃ it ∈ items, ∃ avail, avail < it.quantity ∧
      e = insuffMsg it.product.name avail it.quantity) := by
  induction items generalizing ps with
  | nil =>
    simp only [stockPhase] at herr
    cases herr
  | cons item rest ih =>
    cases hlk : lookupA ps item.product.id with
    | none =>
      rw [stockPhase_cons_none now item rest ps hlk] at herr
      cases herr
      exact Or.inl ⟨item, List.mem_cons_self _ _, rfl⟩
    | some p =>
      rw [stockPhase_cons_some now item rest ps p hlk] at herr
      by_cases hs : p.stock < item.quantity
      · rw [if_pos hs] at herr
        cases herr
        exact Or.inr ⟨item, List.mem_cons_self _ _, p.stock, hs, rfl⟩
      · rw [if_neg hs] at herr
        rcases ih _ herr with ⟨it, hit, he⟩ | ⟨it, hit, avail, hav, he⟩
        · exact Or.inl ⟨it, List.mem_cons_of_mem _ hit, he⟩
        · exact Or.inr ⟨it, List.mem_cons_of_mem _ hit, avail, hav, he⟩

theorem stockPhase_error_of_bad (now : Int) (items : List CartItem)
    (ps₀ ps : List (String × Product))
    (hle : stocksLE ps ps₀)
    (hpos : ∀ it ∈ items, 0 < it.quantity)
    (hbad : ∃ it ∈ items, lookupA ps₀ it.product.id = none ∨
      ∃ p, lookupA ps₀ it.product.id = some p ∧ p.stock < it.quantity) :
    ∃ e, stockPhase now items ps = Except.error e := by
  induction items generalizing ps with
  | nil =>
    obtain ⟨it, hit, _⟩ := hbad
    cases hit
  | cons item rest ih =>
    cases hlk : lookupA ps item.product.id with
    | none => exact ⟨_, stockPhase_cons_none now item rest ps hlk⟩
    | some p =>
      by_cases hs : p.stock < item.quantity
      · exact ⟨_, by rw [stockPhase_cons_some now item rest ps p hlk, if_pos hs]⟩
      · rw [stockPhase_cons_some now item rest ps p hlk, if_neg hs]
        have hle' : stocksLE (setA ps item.product.id
            { p with stock := p.stock - item.quantity, updated_at := now }) ps₀ :=
          stocksLE_trans _ _ _
            (stocksLE_set ps item.product.id p item.quantity
              (le_of_lt (hpos item (List.mem_cons_self _ _))) hlk now) hle
        refine ih _ hle' (fun it hit => hpos it (List.mem_cons_of_mem _ hit)) ?_
        obtain ⟨it, hit, hb⟩ := hbad
        rcases List.mem_cons.mp hit with hhd | htl
        · exfalso
          subst hhd
          obtain ⟨hdom, hst⟩ := hle it.product.id
          rcases hb with hnone | ⟨p₀, hp₀, hlt⟩
          · rw [hlk, hnone] at hdom
            cases hdom
          · exact hs (lt_of_le_of_lt (hst p p₀ hlk hp₀) hlt)
        · exact ⟨it, htl, hb⟩

theorem stockPhase_ok_distinct (now : Int) (items : List CartItem)
    (ps : List (String × Product))
    (hdist : items.Pairwise (fun a b => a.product.id ≠ b.product.id))
    (hex : ∀ it ∈ items, ∃ p, lookupA ps it.product.id = some p ∧
      it.quantity ≤ p.stock) :
    ∃ ps', stockPhase now items ps = Except.ok ps' ∧
      (∀ it ∈ items, ∀ p, lookupA ps it.product.id = some p →
        lookupA ps' it.product.id =
          some { p with stock := p.stock - it.quantity, updated_at := now }) ∧
      (∀ id, (∀ it ∈ items, it.product.id ≠ id) →
        lookupA ps' id = lookupA ps id) := by
  induction items generalizing ps with
  | nil =>
    exact ⟨ps, rfl, fun it hit => absurd hit (List.not_mem_nil _),
      fun id _ => rfl⟩
  | cons item rest ih =>
    obtain ⟨hne, hdist'⟩ := List.pairwise_cons.mp hdist
    obtain ⟨p, hp, hq⟩ := hex item (List.mem_cons_self _ _)
    have hs : ¬ p.stock < item.quantity := not_lt.mpr hq
    set ps₁ := setA ps item.product.id
      { p with stock := p.stock - item.quantity, updated_at := now } with hps₁
    have hlk₁ : ∀ it ∈ rest, lookupA ps₁ it.product.id = lookupA ps it.product.id := by
      intro it hit
      exact lookupA_setA_ne _ _ _ _ (fun h => hne it hit h.symm)
    obtain ⟨ps', hok, hupd, hframe⟩ := ih ps₁ hdist' (by
      intro it hit
      obtain ⟨p₀, hp₀, hq₀⟩ := hex it (List.mem_cons_of_mem _ hit)
      exact ⟨p₀, (hlk₁ it hit).trans hp₀, hq₀⟩)
    refine ⟨ps', ?_, ?_, ?_⟩
    · rw [stockPhase_cons_some now item rest ps p hp, if_neg hs]
      exact hok
    · intro it hit p₀ hp₀
      rcases List.mem_cons.mp hit with hhd | htl
      · subst hhd
        rw [hp] at hp₀
        cases hp₀
        have hfr : lookupA ps' it.product.id = lookupA ps₁ it.product.id :=
          hframe it.product.id (fun it' hit' => Ne.symm (hne it' hit'))
        rw [hfr, hps₁, lookupA_setA_self]
      · have h₁ : lookupA ps it.product.id = lookupA ps₁ it.product.id :=
          (hlk₁ it htl).symm
        exact hupd it htl p₀ (h₁ ▸ hp₀)
    · intro id hid
      have h₁ : lookupA ps' id = lookupA ps₁ id :=
        hframe id (fun it hit => hid it (List.mem_cons_of_mem _ hit))
      rw [h₁, hps₁, lookupA_setA_ne _ _ _ _
        (fun h => hid item (List.mem_cons_self _ _) h.symm)]

theorem processPOSTransaction_of_error (now : Int) (tx : TxInput) (s : Store)
    (e : String) (h : stockPhase now tx.items s.products = Except.error e) :
    processPOSTransaction now tx s = (Except.error e, s) := by
  simp only [processPOSTransaction, h]

theorem processPOSTransaction_of_ok (now : Int) (tx : TxInput) (s : Store)
    (ps : List (String × Product))
    (h : stockPhase now tx.items s.products = Except.ok ps) :
    processPOSTransaction now tx s =
      (Except.ok (autoId s.nextId),
        { products := ps,
          pos_transactions :=
            (autoId s.nextId, posTxRecordOf now tx) :: s.pos_transactions,
          financial_transactions :=
            (autoId (s.nextId + 1), finRecordOf now (autoId s.nextId) tx) ::
              s.financial_transactions,
          daily_sales :=
            updateDailySales now (dateKeyOf now) tx.totalAmount s.daily_sales,
          nextId := s.nextId + 2 }) := by
  simp only [processPOSTransaction, h]

theorem autoId_ne_empty (n : Nat) : autoId n ≠ "" := by
  intro h
  have hlen : (autoId n).length = 0 := by rw [h]; rfl
  rw [autoId, String.length_append] at hlen
  have : ("doc" : String).length = 3 := rfl
  omega

theorem nonneg_of_forall_mem (l : List (String × Product))
    (h : ∀ pr ∈ l, 0 ≤ (Prod.snd pr).stock) :
    ∀ id p, lookupA l id = some p → 0 ≤ p.stock := by
  intro id p hp
  unfold lookupA at hp
  cases hf : l.find? (fun pr => pr.1 == id) with
  | none =>
    rw [hf] at hp
    cases hp
  | some pr =>
    rw [hf] at hp
    cases hp
    exact h pr (List.mem_of_find?_eq_some hf)

/-- C1, as stated, is refuted by a cart holding two lines for the same
product: with stock 5 and two lines requesting 3 each, every line's requested
quantity is at most the product's current stock and the product exists, yet
`processPOSTransaction` aborts with an insufficient-stock error (the second
read sees the stock already staged down to 2) instead of succeeding. -/
theorem C1_counterexample :
    lookupA (mkStore 5).products "p1" = some (colaProduct 5) ∧
    (∀ it ∈ (mkTx [colaItem 3, colaItem 3] 3000).items,
      it.product.id = "p1" ∧ it.quantity ≤ (colaProduct 5).stock) ∧
    (processPOSTransaction 0 (mkTx [colaItem 3, colaItem 3] 3000) (mkStore 5)).1 =
      Except.error (insuffMsg "Cola" 2 3) := by
  refine ⟨by decide, by decide, by rfl⟩

/-- C1 (amended): for every cart whose lines reference pairwise-distinct
products, where every referenced product exists and every line's requested
quantity is at most that product's current stock, `processPOSTransaction`
succeeds, decrements each referenced product's stock by exactly the requested
quantity, and returns a non-empty transaction id. -/
theorem C1_amended_success (now : Int) (tx : TxInput) (s : Store)
    (hdist : tx.items.Pairwise (fun a b => a.product.id ≠ b.product.id))
    (hex : ∀ it ∈ tx.items, ∃ p, lookupA s.products it.product.id = some p ∧
      it.quantity ≤ p.stock) :
    ∃ txId s', processPOSTransaction now tx s = (Except.ok txId, s') ∧
      txId ≠ "" ∧
      (∀ it ∈ tx.items, ∀ p, lookupA s.products it.product.id = some p →
        ∃ p', lookupA s'.products it.product.id = some p' ∧
          p'.stock = p.stock - it.quantity) := by
  obtain ⟨ps, hok, hupd, _⟩ := stockPhase_ok_distinct now tx.items s.products hdist hex
  refine ⟨autoId s.nextId, _, processPOSTransaction_of_ok now tx s ps hok,
    autoId_ne_empty _, ?_⟩
  intro it hit p hp
  exact ⟨_, hupd it hit p hp, rfl⟩

theorem C1_amended_success_witness :
    (mkTx [colaItem 3] 1500).items.Pairwise
      (fun a b => a.product.id ≠ b.product.id) ∧
    (∃ txId s', processPOSTransaction 0 (mkTx [colaItem 3] 1500) (mkStore 5) =
      (Except.ok txId, s') ∧ txId ≠ "" ∧
      (∀ it ∈ (mkTx [colaItem 3] 1500).items, ∀ p,
        lookupA (mkStore 5).products it.product.id = some p →
        ∃ p', lookupA s'.products it.product.id = some p' ∧
          p'.stock = p.stock - it.quantity)) := by
  refine ⟨by decide, C1_amended_success 0 (mkTx [colaItem 3] 1500) (mkStore 5)
    (by decide) ?_⟩
  intro it hit
  cases hit with
  | head => exact ⟨colaProduct 5, rfl, by decide⟩
  | tail _ h => cases h

/-- C2: a cart referencing a missing product or over-requesting stock makes
`processPOSTransaction` fail with the corresponding named error ("product not
found" naming the product, or "insufficient stock" naming the product, an
available quantity and the requested quantity), and leaves the entire store —
products, transactions, financial records and daily aggregates — unchanged. -/
theorem C2_precondition_failure_no_writes (now : Int) (tx : TxInput) (s : Store)
    (hpos : ∀ it ∈ tx.items, 0 < it.quantity)
    (hbad : ∃ it ∈ tx.items, lookupA s.products it.product.id = none ∨
      ∃ p, lookupA s.products it.product.id = some p ∧ p.stock < it.quantity) :
    ∃ e, processPOSTransaction now tx s = (Except.error e, s) ∧
      ((∃ it ∈ tx.items, e = notFoundMsg it.product.name) ∨
       (∃ it ∈ tx.items, ∃ avail, avail < it.quantity ∧
         e = insuffMsg it.product.name avail it.quantity)) := by
  obtain ⟨e, he⟩ := stockPhase_error_of_bad now tx.items s.products s.products
    (stocksLE_refl _) hpos hbad
  exact ⟨e, processPOSTransaction_of_error now tx s e he,
    stockPhase_error_shape now tx.items s.products e he⟩

theorem C2_precondition_failure_no_writes_witness :
    (∀ it ∈ (mkTx [colaItem 10] 5000).items, 0 < it.quantity) ∧
    (∃ e, processPOSTransaction 0 (mkTx [colaItem 10] 5000) (mkStore 2) =
      (Except.error e, mkStore 2) ∧
      ((∃ it ∈ (mkTx [colaItem 10] 5000).items, e = notFoundMsg it.product.name) ∨
       (∃ it ∈ (mkTx [colaItem 10] 5000).items, ∃ avail, avail < it.quantity ∧
         e = insuffMsg it.product.name avail it.quantity))) := by
  refine ⟨by decide, C2_precondition_failure_no_writes 0 (mkTx [colaItem 10] 5000)
    (mkStore 2) (by decide) ?_⟩
  exact ⟨colaItem 10, by decide, Or.inr ⟨colaProduct 2, rfl, by decide⟩⟩

/-- C3: stock non-negativity is an invariant of the core's only
stock-mutating operation: if every product's stock is non-negative before a
`processPOSTransaction` call, it is non-negative after it, whether the call
succeeds or aborts. -/
theorem C3_stock_never_negative (now : Int) (tx : TxInput) (s : Store)
    (hnn : ∀ id p, lookupA s.products id = some p → 0 ≤ p.stock) :
    ∀ id p, lookupA (processPOSTransaction now tx s).2.products id = some p →
      0 ≤ p.stock := by
  cases hsp : stockPhase now tx.items s.products with
  | error e =>
    rw [processPOSTransaction_of_error now tx s e hsp]
    exact hnn
  | ok ps =>
    rw [processPOSTransaction_of_ok now tx s ps hsp]
    exact stockPhase_ok_nonneg now tx.items s.products ps hsp hnn

theorem C3_stock_never_negative_witness :
    (∀ id p, lookupA (mkStore 5).products id = some p → 0 ≤ p.stock) ∧
    (∀ id p, lookupA
      (processPOSTransaction 0 (mkTx [colaItem 3] 1500) (mkStore 5)).2.products
        id = some p → 0 ≤ p.stock) :=
  ⟨nonneg_of_forall_mem _ (by decide),
    C3_stock_never_negative 0 (mkTx [colaItem 3] 1500) (mkStore 5)
      (nonneg_of_forall_mem _ (by decide))⟩

theorem updateDailySales_of_some (now : Int) (date : String) (amount : Int)
    (ds : List (String × DailyRec)) (ex : DailyRec)
    (h : lookupA ds date = some ex) :
    updateDailySales now date amount ds =
      setA ds date
        { date := date, totalSales := ex.totalSales + amount,
          transactionCount := ex.transactionCount + 1,
          updatedAt := now, timestamp := now } := by
  simp only [updateDailySales, h]

theorem updateDailySales_of_none (now : Int) (date : String) (amount : Int)
    (ds : List (String × DailyRec)) (h : lookupA ds date = none) :
    updateDailySales now date amount ds =
      setA ds date
        { date := date, totalSales := amount, transactionCount := 1,
          updatedAt := now, timestamp := now } := by
  simp only [updateDailySales, h]

theorem updateDailySales_fold (now : Int) (date : String) (amounts : List Int)
    (ds : List (String × DailyRec)) (r₀ : DailyRec)
    (h : lookupA ds date = some r₀) :
    ∃ r, lookupA
        (amounts.foldl (fun st a => updateDailySales now date a st) ds) date =
          some r ∧
      r.totalSales = r₀.totalSales + amounts.sum ∧
      r.transactionCount = r₀.transactionCount + amounts.length := by
  induction amounts generalizing ds r₀ with
  | nil =>
    refine ⟨r₀, h, by simp, by simp⟩
  | cons a as ih =>
    obtain ⟨r, hr, h1, h2⟩ := ih
      (setA ds date
        { date := date, totalSales := r₀.totalSales + a,
          transactionCount := r₀.transactionCount + 1,
          updatedAt := now, timestamp := now })
      { date := date, totalSales := r₀.totalSales + a,
        transactionCount := r₀.transactionCount + 1,
        updatedAt := now, timestamp := now }
      (lookupA_setA_self _ _ _)
    refine ⟨r, ?_, ?_, ?_⟩
    · rw [List.foldl_cons, updateDailySales_of_some now date a ds r₀ h]
      exact hr
    · rw [h1]
      simp only [List.sum_cons]
      ring
    · rw [h2]
      simp only [List.length_cons]
      push_cast
      ring

/-- C4: `updateDailySales` reads the aggregate keyed by the date; when present
it writes back the incremented totals with a refreshed timestamp, when absent
it creates the record with `totalSales = amount` and `transactionCount = 1`;
consequently, folding N sequential updates with amounts `a1..aN` over a store
where the date is initially absent yields an aggregate with
`totalSales = Σ ai` and `transactionCount = N`. -/
theorem C4_daily_aggregate_accumulates (now : Int) (date : String)
    (amount : Int) (ds : List (String × DailyRec)) :
    (∀ ex, lookupA ds date = some ex →
      updateDailySales now date amount ds =
        setA ds date
          { date := date, totalSales := ex.totalSales + amount,
            transactionCount := ex.transactionCount + 1,
            updatedAt := now, timestamp := now }) ∧
    (lookupA ds date = none →
      updateDailySales now date amount ds =
        setA ds date
          { date := date, totalSales := amount, transactionCount := 1,
            updatedAt := now, timestamp := now }) ∧
    (∀ amounts : List Int, amounts ≠ [] → lookupA ds date = none →
      ∃ r, lookupA
          (amounts.foldl (fun st a => updateDailySales now date a st) ds) date =
            some r ∧
        r.totalSales = amounts.sum ∧
        r.transactionCount = amounts.length) := by
  refine ⟨fun ex h => updateDailySales_of_some now date amount ds ex h,
    fun h => updateDailySales_of_none now date amount ds h, ?_⟩
  intro amounts hne h
  cases amounts with
  | nil => exact absurd rfl hne
  | cons a as =>
    obtain ⟨r, hr, h1, h2⟩ := updateDailySales_fold now date as
      (setA ds date
        { date := date, totalSales := a, transactionCount := 1,
          updatedAt := now, timestamp := now })
      { date := date, totalSales := a, transactionCount := 1,
        updatedAt := now, timestamp := now }
      (lookupA_setA_self _ _ _)
    refine ⟨r, ?_, ?_, ?_⟩
    · rw [List.foldl_cons, updateDailySales_of_none now date a ds h]
      exact hr
    · rw [h1]
      simp only [List.sum_cons]
    · rw [h2]
      simp only [List.length_cons]
      push_cast
      ring

theorem C4_daily_aggregate_accumulates_witness :
    lookupA ([] : List (String × DailyRec)) "2025-01-02" = none ∧
    (∃ r, lookupA
        (([100, 200, 50] : List Int).foldl
          (fun st a => updateDailySales 7 "2025-01-02" a st) []) "2025-01-02" =
          some r ∧
      r.totalSales = ([100, 200, 50] : List Int).sum ∧
      r.transactionCount = ([100, 200, 50] : List Int).length) :=
  ⟨rfl, (C4_daily_aggregate_accumulates 7 "2025-01-02" 0 []).2.2
    [100, 200, 50] (by decide) rfl⟩

theorem cartTotal_foldl (cart : List CartItem) (acc : Int) :
    cart.foldl (fun total item => total + item.totalPrice) acc =
      acc + (cart.map (fun it => it.totalPrice)).sum := by
  induction cart generalizing acc with
  | nil => simp
  | cons it rest ih =>
    simp only [List.foldl_cons, List.map_cons, List.sum_cons, ih]
    ring

theorem cartTotal_eq_sum (cart : List CartItem) :
    cartTotal cart = (cart.map (fun it => it.totalPrice)).sum := by
  unfold cartTotal
  rw [cartTotal_foldl]
  ring

theorem bumpItem_inv (pid : String) (cart : List CartItem)
    (h : ∀ it ∈ cart, it.totalPrice = it.quantity * it.price) :
    ∀ it ∈ bumpItem pid cart, it.totalPrice = it.quantity * it.price := by
  induction cart with
  | nil =>
    intro it hit
    cases hit
  | cons hd rest ih =>
    intro it hit
    simp only [bumpItem] at hit
    split at hit
    · cases hit with
      | head => rfl
      | tail _ h₂ => exact h it (List.mem_cons_of_mem _ h₂)
    · cases hit with
      | head => exact h _ (List.mem_cons_self _ _)
      | tail _ h₂ =>
        exact ih (fun it' hit' => h it' (List.mem_cons_of_mem _ hit')) it h₂

theorem addToCart_inv (cart : List CartItem) (p : ProductSnapshot)
    (h : ∀ it ∈ cart, it.totalPrice = it.quantity * it.price) :
    ∀ it ∈ addToCart cart p, it.totalPrice = it.quantity * it.price := by
  intro it hit
  simp only [addToCart] at hit
  split at hit
  · exact bumpItem_inv p.id cart h it hit
  · rcases List.mem_append.mp hit with h₁ | h₂
    · exact h it h₁
    · rw [List.mem_singleton] at h₂
      subst h₂
      show p.price = 1 * p.price
      rw [one_mul]

theorem updateQuantity_inv (cart : List CartItem) (pid : String) (change : Int)
    (h : ∀ it ∈ cart, it.totalPrice = it.quantity * it.price) :
    ∀ it ∈ updateQuantity cart pid change,
      it.totalPrice = it.quantity * it.price := by
  intro it hit
  simp only [updateQuantity] at hit
  cases hf : cart.find? (fun it => it.id == pid) with
  | none =>
    rw [hf] at hit
    exact h it hit
  | some item =>
    rw [hf] at hit
    dsimp only at hit
    by_cases hz : (max 0 (item.quantity + change) == 0) = true
    · rw [if_pos hz] at hit
      exact h it (List.mem_of_mem_filter hit)
    · rw [if_neg hz] at hit
      rcases List.mem_map.mp hit with ⟨it₀, hit₀, rfl⟩
      by_cases hid : (it₀.id == pid) = true
      · simp only [hid, if_true]
      · simp only [hid, if_false]
        exact h it₀ hit₀

theorem applyCartOp_inv (cart : List CartItem) (op : CartOp)
    (h : ∀ it ∈ cart, it.totalPrice = it.quantity * it.price) :
    ∀ it ∈ applyCartOp cart op, it.totalPrice = it.quantity * it.price := by
  cases op with
  | add p => exact addToCart_inv cart p h
  | update pid change => exact updateQuantity_inv cart pid change h
  | remove pid =>
    intro it hit
    exact h it (List.mem_of_mem_filter hit)
  | clear =>
    intro it hit
    cases hit

theorem applyCartOps_inv (ops : List CartOp) :
    ∀ it ∈ applyCartOps ops, it.totalPrice = it.quantity * it.price := by
  have hgen : ∀ cart, (∀ it ∈ cart, it.totalPrice = it.quantity * it.price) →
      ∀ it ∈ ops.foldl applyCartOp cart,
        it.totalPrice = it.quantity * it.price := by
    induction ops with
    | nil =>
      intro cart h
      simpa using h
    | cons op rest ih =>
      intro cart h
      rw [List.foldl_cons]
      exact ih _ (applyCartOp_inv cart op h)
  exact hgen [] (fun it hit => absurd hit (List.not_mem_nil _))

/-- C5: every transaction persisted through the POS checkout path (a cart
reachable by the UI's cart operations, packaged by `processPayment` and
persisted by `processPOSTransaction`) stores a total amount equal to the sum
of its items' line totals, and each stored item's line total equals its
quantity times its unit price. -/
theorem C5_stored_total_is_sum_of_line_totals (ops : List CartOp) (now : Int)
    (pm : String) (cr ch : Option Int) (st cid cname : String) (s : Store)
    (txId : String)
    (hok : (processPOSTransaction now
      (buildTransaction (applyCartOps ops) pm cr ch st cid cname) s).1 =
        Except.ok txId) :
    ∃ r, (processPOSTransaction now
        (buildTransaction (applyCartOps ops) pm cr ch st cid cname)
          s).2.pos_transactions =
        (txId, r) :: s.pos_transactions ∧
      r.totalAmount = (r.items.map (fun it => it.totalPrice)).sum ∧
      (∀ it ∈ r.items, it.totalPrice = it.quantity * it.price) := by
  cases hsp : stockPhase now
      (buildTransaction (applyCartOps ops) pm cr ch st cid cname).items
      s.products with
  | error e =>
    rw [processPOSTransaction_of_error now _ s e hsp] at hok
    cases hok
  | ok ps =>
    rw [processPOSTransaction_of_ok now _ s ps hsp] at hok
    rw [processPOSTransaction_of_ok now _ s ps hsp]
    cases hok
    refine ⟨posTxRecordOf now
      (buildTransaction (applyCartOps ops) pm cr ch st cid cname), rfl, ?_, ?_⟩
    · show cartTotal (applyCartOps ops) =
        ((((applyCartOps ops).map _).map simplifyItem).map
          (fun it => it.totalPrice)).sum
      rw [cartTotal_eq_sum, List.map_map, List.map_map]
      rfl
    · intro it hit
      rcases List.mem_map.mp hit with ⟨it₁, hit₁, rfl⟩
      rcases List.mem_map.mp hit₁ with ⟨it₀, hit₀, rfl⟩
      show it₀.totalPrice = it₀.quantity * it₀.price
      exact applyCartOps_inv ops it₀ hit₀

theorem C5_stored_total_is_sum_of_line_totals_witness :
    (processPOSTransaction 0
      (buildTransaction (applyCartOps [CartOp.add colaSnapshot, CartOp.add colaSnapshot])
        "cash" (some 2000) (some 1000) "completed" "c1" "Alice") (mkStore 5)).1 =
      Except.ok "doc0" ∧
    (∃ r, (processPOSTransaction 0
        (buildTransaction (applyCartOps [CartOp.add colaSnapshot, CartOp.add colaSnapshot])
          "cash" (some 2000) (some 1000) "completed" "c1" "Alice")
            (mkStore 5)).2.pos_transactions =
        ("doc0", r) :: (mkStore 5).pos_transactions ∧
      r.totalAmount = (r.items.map (fun it => it.totalPrice)).sum ∧
      (∀ it ∈ r.items, it.totalPrice = it.quantity * it.price)) :=
  ⟨rfl, C5_stored_total_is_sum_of_line_totals
    [CartOp.add colaSnapshot, CartOp.add colaSnapshot] 0 "cash" (some 2000)
    (some 1000) "completed" "c1" "Alice" (mkStore 5) "doc0" rfl⟩

theorem insertDesc_perm (d : RawTxDoc) (l : List RawTxDoc) :
    (insertDesc d l).Perm (d :: l) := by
  induction l with
  | nil => exact List.Perm.refl _
  | cons e rest ih =>
    simp only [insertDesc]
    split
    · exact List.Perm.refl _
    · exact (List.Perm.cons e ih).trans (List.Perm.swap d e rest)

theorem sortDescTx_perm (l : List RawTxDoc) : (sortDescTx l).Perm l := by
  induction l with
  | nil => exact List.Perm.refl _
  | cons d rest ih =>
    exact (insertDesc_perm d (sortDescTx rest)).trans (List.Perm.cons d ih)

theorem insertDesc_sorted (d : RawTxDoc) (l : List RawTxDoc)
    (h : l.Pairwise (fun a b => tsKey b ≤ tsKey a)) :
    (insertDesc d l).Pairwise (fun a b => tsKey b ≤ tsKey a) := by
  induction l with
  | nil => exact List.pairwise_singleton _ _
  | cons e rest ih =>
    obtain ⟨he, hrest⟩ := List.pairwise_cons.mp h
    simp only [insertDesc]
    split
    · rename_i hlt
      refine List.pairwise_cons.mpr ⟨?_, h⟩
      intro b hb
      cases hb with
      | head => exact le_of_lt hlt
      | tail _ hb₂ => exact le_trans (he b hb₂) (le_of_lt hlt)
    · rename_i hnlt
      refine List.pairwise_cons.mpr ⟨?_, ih hrest⟩
      intro b hb
      have hb' : b ∈ d :: rest := (insertDesc_perm d rest).mem_iff.mp hb
      cases hb' with
      | head => exact not_lt.mp hnlt
      | tail _ hb₂ => exact he b hb₂

theorem sortDescTx_sorted (l : List RawTxDoc) :
    (sortDescTx l).Pairwise (fun a b => tsKey b ≤ tsKey a) := by
  induction l with
  | nil => exact List.Pairwise.nil
  | cons d rest ih => exact insertDesc_sorted d (sortDescTx rest) ih

theorem range_filter_collapse (lo hi : Int) (docs : List RawTxDoc) :
    (docs.filter (tsInRange lo hi)).filter (fun d => d.timestamp.isSome) =
      docs.filter (tsInRange lo hi) := by
  induction docs with
  | nil => rfl
  | cons d rest ih =>
    by_cases hd : tsInRange lo hi d = true
    · have hsome : d.timestamp.isSome = true := by
        unfold tsInRange at hd
        cases ht : d.timestamp with
        | none => rw [ht] at hd; cases hd
        | some ts => rfl
      simp only [List.filter_cons, hd, hsome, if_true, ih]
    · simp [List.filter_cons, hd, ih]

theorem tsInRange_iff (lo hi : Int) (d : RawTxDoc) :
    tsInRange lo hi d = true ↔
      ∃ ts, d.timestamp = some ts ∧ lo ≤ ts ∧ ts ≤ hi := by
  unfold tsInRange
  cases ht : d.timestamp with
  | none =>
    simp
  | some ts =>
    simp

/-- C6: the range query returns exactly (as a multiset, and hence as a set)
the stored transactions whose creation timestamp lies in the inclusive window
from the start date truncated to 00:00:00.000 to the end date extended to
23:59:59.999, sorted descending by creation time. -/
theorem C6_range_query_window_and_order (startDate endDate : Int)
    (docs : List RawTxDoc) :
    ((getPOSTransactionsByDateRange startDate endDate docs).1.Perm
      (docs.filter (tsInRange (startOfDay startDate) (endOfDay endDate)))) ∧
    (∀ d, d ∈ (getPOSTransactionsByDateRange startDate endDate docs).1 ↔
      d ∈ docs ∧ ∃ ts, d.timestamp = some ts ∧
        startOfDay startDate ≤ ts ∧ ts ≤ endOfDay endDate) ∧
    (getPOSTransactionsByDateRange startDate endDate docs).1.Pairwise
      (fun a b => tsKey b ≤ tsKey a) := by
  have hcol := range_filter_collapse (startOfDay startDate) (endOfDay endDate) docs
  have hperm : (getPOSTransactionsByDateRange startDate endDate docs).1.Perm
      (docs.filter (tsInRange (startOfDay startDate) (endOfDay endDate))) := by
    show (sortDescTx _).Perm _
    rw [hcol]
    exact sortDescTx_perm _
  refine ⟨hperm, ?_, ?_⟩
  · intro d
    rw [hperm.mem_iff, List.mem_filter, tsInRange_iff]
  · show (sortDescTx _).Pairwise _
    exact sortDescTx_sorted _

/-- C10: `getPOSTransactionsByDateRange` mutates its caller's `Date`
arguments in place via `setHours`: after the call, the start argument has been
truncated to midnight of its day (a multiple of 86 400 000 ms, at most the
original value, less than a day below it) and the end argument has been
extended to the last millisecond of its day. -/
theorem C10_mutates_date_arguments (startDate endDate : Int)
    (docs : List RawTxDoc) :
    (getPOSTransactionsByDateRange startDate endDate docs).2.1 =
      startOfDay startDate ∧
    (getPOSTransactionsByDateRange startDate endDate docs).2.2 =
      endOfDay endDate ∧
    (startOfDay startDate) % dayMs = 0 ∧
    startOfDay startDate ≤ startDate ∧
    startDate < startOfDay startDate + dayMs ∧
    endOfDay endDate = startOfDay endDate + (dayMs - 1) := by
  refine ⟨rfl, rfl, ?_, ?_, ?_, ?_⟩
  · simp only [startOfDay, dayMs]
    omega
  · simp only [startOfDay, dayMs]
    omega
  · simp only [startOfDay, dayMs]
    omega
  · simp only [endOfDay, dayMs]
    norm_num

theorem jsOrZero_some (v : Option Int) : jsOrZero (some v) = v.getD 0 := by
  cases v <;> rfl

theorem jsAdd_foldl (l : List RawTxDoc) (s0 : Int)
    (h : ∀ d ∈ l, d.totalAmount.isSome) :
    l.foldl (fun sum t => jsAdd sum t.totalAmount) (some s0) =
      some (s0 + (l.map (fun d => d.totalAmount.getD 0)).sum) := by
  induction l generalizing s0 with
  | nil => simp
  | cons d rest ih =>
    obtain ⟨a, ha⟩ := Option.isSome_iff_exists.mp (h d (List.mem_cons_self _ _))
    rw [List.foldl_cons]
    have hstep : jsAdd (some s0) d.totalAmount = some (s0 + a) := by
      rw [ha]
      rfl
    rw [hstep, ih (s0 + a) (fun d' hd' => h d' (List.mem_cons_of_mem _ hd'))]
    simp only [List.map_cons, List.sum_cons, ha, Option.getD_some]
    ring_nf

theorem countsStep_foldl (l : List RawTxDoc) (acc : List (String × Int))
    (m : String) :
    (lookupA (l.foldl countsStep acc) m).getD 0 =
      (lookupA acc m).getD 0 +
        (l.filter (fun d => d.paymentMethod == m)).length := by
  induction l generalizing acc with
  | nil => simp
  | cons d rest ih =>
    rw [List.foldl_cons, ih]
    by_cases hm : d.paymentMethod = m
    · subst hm
      have hself : (lookupA (countsStep acc d) d.paymentMethod).getD 0 =
          (lookupA acc d.paymentMethod).getD 0 + 1 := by
        unfold countsStep
        rw [lookupA_setA_self]
        rfl
      rw [hself, List.filter_cons_of_pos (by simp)]
      simp only [List.length_cons]
      push_cast
      ring
    · have hne : lookupA (countsStep acc d) m = lookupA acc m := by
        unfold countsStep
        exact lookupA_setA_ne _ _ _ _ (Ne.symm hm)
      rw [hne, List.filter_cons_of_neg (by simp [hm])]

theorem totalsStep_foldl (l : List RawTxDoc) (acc : List (String × Option Int))
    (m : String) (h : ∀ d ∈ l, d.totalAmount.isSome) :
    jsOrZero (lookupA (l.foldl totalsStep acc) m) =
      jsOrZero (lookupA acc m) +
        ((l.filter (fun d => d.paymentMethod == m)).map
          (fun d => d.totalAmount.getD 0)).sum := by
  induction l generalizing acc with
  | nil => simp
  | cons d rest ih =>
    obtain ⟨a, ha⟩ := Option.isSome_iff_exists.mp (h d (List.mem_cons_self _ _))
    rw [List.foldl_cons, ih _ (fun d' hd' => h d' (List.mem_cons_of_mem _ hd'))]
    by_cases hm : d.paymentMethod = m
    · subst hm
      have hself : lookupA (totalsStep acc d) d.paymentMethod =
          some (jsAdd (some (jsOrZero (lookupA acc d.paymentMethod)))
            d.totalAmount) := by
        unfold totalsStep
        exact lookupA_setA_self _ _ _
      rw [hself, List.filter_cons_of_pos (by simp), jsOrZero_some, ha]
      simp only [jsAdd, Option.getD_some, List.map_cons, List.sum_cons, ha]
      ring
    · have hne : lookupA (totalsStep acc d) m = lookupA acc m := by
        unfold totalsStep
        exact lookupA_setA_ne _ _ _ _ (Ne.symm hm)
      rw [hne, List.filter_cons_of_neg (by simp [hm])]

theorem sumEntries_setA (acc : List (String × Option Int)) (k : String)
    (v : Option Int) :
    ((setA acc k v).map (fun pr => pr.2.getD 0)).sum =
      (acc.map (fun pr => pr.2.getD 0)).sum + v.getD 0 -
        jsOrZero (lookupA acc k) := by
  induction acc with
  | nil =>
    simp [setA, jsOrZero, lookupA]
  | cons pr rest ih =>
    obtain ⟨k', v'⟩ := pr
    by_cases hk : k' = k
    · subst hk
      simp only [setA, beq_self_eq_true, if_true, List.map_cons,
        List.sum_cons, lookupA_cons, if_pos rfl, jsOrZero_some]
      ring
    · have hbeq : (k' == k) = false := by simp [hk]
      simp only [setA, hbeq, Bool.false_eq_true, if_false, List.map_cons,
        List.sum_cons, lookupA_cons, hk, ih]
      ring

theorem totalsStep_sumEntries (l : List RawTxDoc)
    (acc : List (String × Option Int))
    (h : ∀ d ∈ l, d.totalAmount.isSome) :
    ((l.foldl totalsStep acc).map (fun pr => pr.2.getD 0)).sum =
      (acc.map (fun pr => pr.2.getD 0)).sum +
        (l.map (fun d => d.totalAmount.getD 0)).sum := by
  induction l generalizing acc with
  | nil => simp
  | cons d rest ih =>
    obtain ⟨a, ha⟩ := Option.isSome_iff_exists.mp (h d (List.mem_cons_self _ _))
    rw [List.foldl_cons, ih _ (fun d' hd' => h d' (List.mem_cons_of_mem _ hd'))]
    have hstep : ((totalsStep acc d).map (fun pr => pr.2.getD 0)).sum =
        (acc.map (fun pr => pr.2.getD 0)).sum + a := by
      unfold totalsStep
      rw [sumEntries_setA, ha]
      simp only [jsAdd, Option.getD_some]
      ring
    rw [hstep]
    simp only [List.map_cons, List.sum_cons, ha, Option.getD_some]
    ring

theorem mem_range_result (startDate endDate : Int) (docs : List RawTxDoc)
    (d : RawTxDoc)
    (hd : d ∈ (getPOSTransactionsByDateRange startDate endDate docs).1) :
    d ∈ docs := by
  have hmem := (sortDescTx_perm _).mem_iff.mp hd
  exact (List.mem_filter.mp (List.mem_filter.mp hmem).1).1

/-- C7: the transaction summary is a pure fold over the range-query result:
total = sum of amounts, count = length, the per-payment-method counts and
totals group exactly the transactions of that method, and the per-method
totals sum to the grand total (stated for stores whose transaction documents
carry an amount, which every document written by the record phase does). -/
theorem C7_summary_is_pure_fold (startDate endDate : Int)
    (docs : List RawTxDoc) (hwf : ∀ d ∈ docs, d.totalAmount.isSome) :
    (getPOSTransactionsSummary startDate endDate docs).totalSales =
      some (((getPOSTransactionsByDateRange startDate endDate docs).1.map
        (fun d => d.totalAmount.getD 0)).sum) ∧
    (getPOSTransactionsSummary startDate endDate docs).transactionCount =
      (getPOSTransactionsByDateRange startDate endDate docs).1.length ∧
    (∀ m, (lookupA (getPOSTransactionsSummary startDate endDate
        docs).paymentMethodCounts m).getD 0 =
      ((getPOSTransactionsByDateRange startDate endDate docs).1.filter
        (fun d => d.paymentMethod == m)).length) ∧
    (∀ m, jsOrZero (lookupA (getPOSTransactionsSummary startDate endDate
        docs).paymentMethodTotals m) =
      (((getPOSTransactionsByDateRange startDate endDate docs).1.filter
        (fun d => d.paymentMethod == m)).map
          (fun d => d.totalAmount.getD 0)).sum) ∧
    (((getPOSTransactionsSummary startDate endDate
        docs).paymentMethodTotals.map (fun pr => pr.2.getD 0)).sum =
      ((getPOSTransactionsByDateRange startDate endDate docs).1.map
        (fun d => d.totalAmount.getD 0)).sum) := by
  have hres : ∀ d ∈ (getPOSTransactionsByDateRange startDate endDate docs).1,
      d.totalAmount.isSome :=
    fun d hd => hwf d (mem_range_result startDate endDate docs d hd)
  refine ⟨?_, rfl, ?_, ?_, ?_⟩
  · show ((getPOSTransactionsByDateRange startDate endDate docs).1.foldl
      (fun sum t => jsAdd sum t.totalAmount) (some 0)) = _
    rw [jsAdd_foldl _ 0 hres, zero_add]
  · intro m
    show (lookupA ((getPOSTransactionsByDateRange startDate endDate
      docs).1.foldl countsStep []) m).getD 0 = _
    rw [countsStep_foldl]
    simp [lookupA]
  · intro m
    show jsOrZero (lookupA ((getPOSTransactionsByDateRange startDate endDate
      docs).1.foldl totalsStep []) m) = _
    rw [totalsStep_foldl _ _ _ hres]
    simp [lookupA, jsOrZero]
  · show ((((getPOSTransactionsByDateRange startDate endDate docs).1.foldl
      totalsStep []).map (fun pr => pr.2.getD 0)).sum) = _
    rw [totalsStep_sumEntries _ _ hres]
    simp

theorem C7_summary_is_pure_fold_witness :
    (∀ d ∈ [(⟨"t1", some 10, some [], some 100, "cash"⟩ : RawTxDoc),
      ⟨"t2", some 20, some [], some 50, "card"⟩], d.totalAmount.isSome) ∧
    ((getPOSTransactionsSummary 0 0
      [(⟨"t1", some 10, some [], some 100, "cash"⟩ : RawTxDoc),
        ⟨"t2", some 20, some [], some 50, "card"⟩]).totalSales =
      some (((getPOSTransactionsByDateRange 0 0
        [(⟨"t1", some 10, some [], some 100, "cash"⟩ : RawTxDoc),
          ⟨"t2", some 20, some [], some 50, "card"⟩]).1.map
        (fun d => d.totalAmount.getD 0)).sum)) :=
  ⟨by decide,
    (C7_summary_is_pure_fold 0 0
      [(⟨"t1", some 10, some [], some 100, "cash"⟩ : RawTxDoc),
        ⟨"t2", some 20, some [], some 50, "card"⟩] (by decide)).1⟩

theorem insertAscDaily_perm (d : RawDailyDoc) (l : List RawDailyDoc) :
    (insertAscDaily d l).Perm (d :: l) := by
  induction l with
  | nil => exact List.Perm.refl _
  | cons e rest ih =>
    simp only [insertAscDaily]
    split
    · exact List.Perm.refl _
    · exact (List.Perm.cons e ih).trans (List.Perm.swap d e rest)

theorem sortAscDaily_perm (l : List RawDailyDoc) : (sortAscDaily l).Perm l := by
  induction l with
  | nil => exact List.Perm.refl _
  | cons d rest ih =>
    exact (insertAscDaily_perm d (sortAscDaily rest)).trans (List.Perm.cons d ih)

/-- C8 counterexample: `getMonthlySales` returns — rather than skipping — a
persisted daily-sales document that is missing every required aggregate field
(`date`, `totalSales`, `transactionCount`), as long as it carries a timestamp
inside the queried month (here: midnight of 2025-01-01). -/
theorem C8_counterexample :
    getMonthlySales 2025 1 [corruptDailyDoc] = [corruptDailyDoc] ∧
    corruptDailyDoc.totalSales = none ∧ corruptDailyDoc.date = none ∧
    corruptDailyDoc.transactionCount = none := by
  exact ⟨by decide, rfl, rfl, rfl⟩

/-- C8 (amended): the transaction reads are tolerant as claimed — the
live-list parser keeps exactly the documents carrying all its required fields
(timestamp, items array, numeric total) and the range query keeps exactly the
documents carrying a timestamp, skipping the rest without aborting — but the
aggregate reads perform no per-record validation at all: `getMonthlySales`
returns every document matching the month window as-is, malformed or not.
All of these reads are total functions of the document list, so no single
corrupt record aborts a query result. -/
theorem C8_amended_read_tolerance (docs : List RawTxDoc) (a b : Int)
    (year month : Int) (ddocs : List RawDailyDoc) :
    (∀ d, d ∈ parsePOSDocs docs ↔ d ∈ docs ∧ validTxDoc d = true) ∧
    (∀ d ∈ parsePOSDocs docs,
      d.timestamp.isSome ∧ d.items.isSome ∧ d.totalAmount.isSome) ∧
    (∀ d ∈ (getPOSTransactionsByDateRange a b docs).1, d.timestamp.isSome) ∧
    (∀ d, d ∈ getMonthlySales year month ddocs ↔
      d ∈ ddocs ∧ inMonthWindow year month d = true) := by
  have hmemP : ∀ d, d ∈ parsePOSDocs docs ↔ d ∈ docs ∧ validTxDoc d = true := by
    intro d
    show d ∈ sortDescTx _ ↔ _
    rw [(sortDescTx_perm _).mem_iff, List.mem_filter]
  refine ⟨hmemP, ?_, ?_, ?_⟩
  · intro d hd
    have hv := ((hmemP d).mp hd).2
    unfold validTxDoc at hv
    simp only [Bool.and_eq_true] at hv
    exact ⟨hv.1.1, hv.1.2, hv.2⟩
  · intro d hd
    have hmem := (sortDescTx_perm _).mem_iff.mp hd
    exact (List.mem_filter.mp hmem).2
  · intro d
    show d ∈ sortAscDaily _ ↔ _
    rw [(sortAscDaily_perm _).mem_iff, List.mem_filter]

/-- C9: the record phase's write payloads do not assign each field exactly
once — the `pos_transactions` and `financial_transactions` object literals
each list the payment, cashier and timestamp fields twice (the copy-pasted
block also re-declares `const dateString`/`const simplifiedItems` above the
first literal), so the claim correctly identifies a defect in the code. -/
theorem C9_payload_fields_duplicated :
    posTransactionPayloadFields.count "paymentMethod" = 2 ∧
    financialPayloadFields.count "paymentMethod" = 2 ∧
    ¬ posTransactionPayloadFields.Nodup ∧
    ¬ financialPayloadFields.Nodup := by
  exact ⟨by decide, by decide, by decide, by decide⟩
